import Mathlib

/-!
Verification model of the ros2 topic-viewer streaming pipeline
(stream decoder, record parsing, sample extraction, sample store,
render throttle, subscription stop/start).

Conventions of the embedding:
- a byte is a `Nat` below 256; a text is a `List Nat` of Unicode code points;
- JS numbers are modelled as exact rationals (the executable type `Q`);
- JS `Map` objects are insertion-ordered association lists;
- callback/timer interleavings are modelled by explicit oracles
  (eg. the millisecond at which a child process exits).
-/

/-- Code points of a Lean string literal, used to write concrete inputs. -/
def str (s : String) : List Nat := s.data.map Char.toNat

/-- True when the text contains the replacement character U+FFFD.
Mirrors the source check `utf8.includes(STR_FFFD)`. -/
def hasRepl : List Nat → Bool
  | [] => false
  | c :: r => if c = 0xFFFD then true else hasRepl r

theorem hasRepl_iff (l : List Nat) : hasRepl l = true ↔ 0xFFFD ∈ l := by
  induction l with
  | nil => simp [hasRepl]
  | cons c r ih =>
    by_cases h : c = 0xFFFD <;>
      simp [hasRepl, h, ih, eq_comm (a := (0xFFFD : Nat))]

/-! ## WHATWG UTF-8 stream decoder

Model of the incremental UTF-8 decoder used by the source through
`new TextDecoder(UTF8_LABEL)` (`createUtf8StreamDecoder` in
src/ros2/ros2Cli.ts) and by `buffer.toString(UTF8_LABEL)`.
The decoder emits items: a decoded code point, or `bad` for each
replacement-character substitution. -/

inductive U8Item where
  | cp (n : Nat)
  | bad
deriving DecidableEq, Repr

/-- Char emitted for an item: `bad` becomes U+FFFD. -/
def itemChar : U8Item → Nat
  | .cp n => n
  | .bad => 0xFFFD

def isBad : U8Item → Bool
  | .cp _ => false
  | .bad => true

/-- State of the WHATWG UTF-8 decoder. -/
structure U8 where
  code : Nat
  needed : Nat
  seen : Nat
  lo : Nat
  hi : Nat
deriving DecidableEq, Repr

def u8Init : U8 := ⟨0, 0, 0, 0x80, 0xBF⟩

/-- Handler for a byte arriving with no multi-byte sequence in progress. -/
def u8Start (b : Nat) : U8 × List U8Item :=
  if b ≤ 0x7F then (u8Init, [.cp b])
  else if 0xC2 ≤ b ∧ b ≤ 0xDF then (⟨b - 0xC0, 1, 0, 0x80, 0xBF⟩, [])
  else if 0xE0 ≤ b ∧ b ≤ 0xEF then
    (⟨b - 0xE0, 2, 0, if b = 0xE0 then 0xA0 else 0x80,
      if b = 0xED then 0x9F else 0xBF⟩, [])
  else if 0xF0 ≤ b ∧ b ≤ 0xF4 then
    (⟨b - 0xF0, 3, 0, if b = 0xF0 then 0x90 else 0x80,
      if b = 0xF4 then 0x8F else 0xBF⟩, [])
  else (u8Init, [.bad])

/-- One byte of the WHATWG UTF-8 decode algorithm. On a continuation byte
outside the allowed window the byte is reprocessed from the start state,
after emitting a replacement. -/
def u8Step (s : U8) (b : Nat) : U8 × List U8Item :=
  if s.needed = 0 then u8Start b
  else if b < s.lo ∨ s.hi < b then
    let r := u8Start b
    (r.1, .bad :: r.2)
  else
    let c := s.code * 64 + (b - 0x80)
    if s.seen + 1 = s.needed then (u8Init, [.cp c])
    else (⟨c, s.needed, s.seen + 1, 0x80, 0xBF⟩, [])

/-- Run the UTF-8 decoder over a byte list, threading state. -/
def u8Run : U8 → List Nat → U8 × List U8Item
  | s, [] => (s, [])
  | s, b :: rest =>
    let r1 := u8Step s b
    let r2 := u8Run r1.1 rest
    (r2.1, r1.2 ++ r2.2)

/-- Flush at end of stream: an unfinished sequence yields a replacement. -/
def u8Flush (s : U8) : List U8Item :=
  if s.needed = 0 then [] else [.bad]

/-- Items of decoding a whole byte sequence at once. -/
def utf8Items (bs : List Nat) : List U8Item :=
  (u8Run u8Init bs).2 ++ u8Flush (u8Run u8Init bs).1

/-- Decode a whole byte sequence at once, with replacement characters.
Mirrors `buffer.toString(UTF8_LABEL)`. -/
def utf8DecodeWhole (bs : List Nat) : List Nat :=
  (utf8Items bs).map itemChar

/-- A byte sequence is valid UTF-8 when decoding it makes no substitution. -/
def validUtf8 (bs : List Nat) : Bool :=
  (utf8Items bs).all (fun i => !(isBad i))

theorem u8Run_append (s : U8) (a b : List Nat) :
    u8Run s (a ++ b) =
      ((u8Run (u8Run s a).1 b).1, (u8Run s a).2 ++ (u8Run (u8Run s a).1 b).2) := by
  induction a generalizing s with
  | nil => simp [u8Run]
  | cons x xs ih => simp [u8Run, ih, List.append_assoc]

/-- The explicit UTF-8 stream decoder: `write` decodes incrementally
keeping state, mirroring `decoder.decode(chunk, streaming)`. -/
def utf8Write (s : U8) (chunk : List Nat) : U8 × List Nat :=
  ((u8Run s chunk).1, (u8Run s chunk).2.map itemChar)

/-- End call of the explicit UTF-8 stream decoder: flush trailing state. -/
def utf8End (s : U8) : List Nat :=
  (u8Flush s).map itemChar

/-- Feed two chunks through the explicit UTF-8 stream decoder and end. -/
def utf8Run2 (b1 b2 : List Nat) : List Nat :=
  (utf8Write u8Init b1).2 ++ (utf8Write (utf8Write u8Init b1).1 b2).2 ++
    utf8End (utf8Write (utf8Write u8Init b1).1 b2).1

/-! ## Legacy (cp932 / Shift-JIS family) stream decoder

Modelled from the spec: the legacy code page decoder
(`iconv.getDecoder(CP932)` / `iconv.decode(buffer, CP932)` in
src/ros2/ros2Cli.ts) lives in an outside library, so its structure is taken
from the glossary (a single/double-byte Shift-JIS-family code page):
ASCII bytes decode to themselves, bytes 0xA1-0xDF are single-byte
half-width katakana, bytes 0x81-0x9F and 0xE0-0xFC start a two-byte
character completed by a trail byte 0x40-0xFC other than 0x7F. The
concrete double-byte mapping table is abstracted by `dbcsChar`, an
injective code-point assignment disjoint from ASCII and U+FFFD. -/

/-- Model code point for a double-byte pair of the legacy code page. -/
def dbcsChar (l t : Nat) : Nat := 0x10000 + l * 256 + t

def cpLead (b : Nat) : Bool :=
  (0x81 ≤ b ∧ b ≤ 0x9F) ∨ (0xE0 ≤ b ∧ b ≤ 0xFC)

def cpKana (b : Nat) : Bool := 0xA1 ≤ b ∧ b ≤ 0xDF

def cpTrail (b : Nat) : Bool := 0x40 ≤ b ∧ b ≤ 0xFC ∧ b ≠ 0x7F

/-- One byte of the legacy decoder. State: a pending lead byte, if any. -/
def cpStep (s : Option Nat) (b : Nat) : Option Nat × List U8Item :=
  match s with
  | some l => if cpTrail b then (none, [.cp (dbcsChar l b)]) else (none, [.bad])
  | none =>
    if b ≤ 0x7F then (none, [.cp b])
    else if cpKana b then (none, [.cp (0xFF61 + (b - 0xA1))])
    else if cpLead b then (some b, [])
    else (none, [.bad])

def cpRun : Option Nat → List Nat → Option Nat × List U8Item
  | s, [] => (s, [])
  | s, b :: rest =>
    let r1 := cpStep s b
    let r2 := cpRun r1.1 rest
    (r2.1, r1.2 ++ r2.2)

/-- Flush of the legacy decoder: a dangling lead byte substitutes. -/
def cpFlush (s : Option Nat) : List U8Item :=
  match s with
  | some _ => [.bad]
  | none => []

def cp932Items (bs : List Nat) : List U8Item :=
  (cpRun none bs).2 ++ cpFlush (cpRun none bs).1

/-- Decode a whole byte sequence with the legacy decoder at once.
Mirrors `iconv.decode(buffer, CP932)`. -/
def cp932DecodeWhole (bs : List Nat) : List Nat :=
  (cp932Items bs).map itemChar

/-- A byte sequence is valid in the legacy code page when decoding it
makes no substitution. -/
def validCp932 (bs : List Nat) : Bool :=
  (cp932Items bs).all (fun i => !(isBad i))

theorem cpRun_append (s : Option Nat) (a b : List Nat) :
    cpRun s (a ++ b) =
      ((cpRun (cpRun s a).1 b).1, (cpRun s a).2 ++ (cpRun (cpRun s a).1 b).2) := by
  induction a generalizing s with
  | nil => simp [cpRun]
  | cons x xs ih => simp [cpRun, ih, List.append_assoc]

/-! ## Auto-mode stream decoder

Model of the `auto` branch of `createRos2StreamDecoder`
(src/ros2/ros2Cli.ts lines 280-345, the branch taken on the platform
where legacy fallback is enabled): buffer incoming bytes while
undecided; once pending bytes reach 1024, or at `end()`, decode the
pending buffer as UTF-8 and commit to the legacy decoder exactly when
the result contains U+FFFD, then replay the buffered bytes through the
chosen delegate. -/

inductive Delg where
  | u (s : U8)
  | c (s : Option Nat)
deriving DecidableEq, Repr

def delgWrite : Delg → List Nat → Delg × List Nat
  | .u s, bs => (.u (u8Run s bs).1, (u8Run s bs).2.map itemChar)
  | .c s, bs => (.c (cpRun s bs).1, (cpRun s bs).2.map itemChar)

def delgEnd : Delg → List Nat
  | .u s => (u8Flush s).map itemChar
  | .c s => (cpFlush s).map itemChar

/-- The decision: commit to the legacy decoder when the UTF-8 decode of
the pending buffer contains a replacement character. -/
def chooseDelg (pend : List Nat) : Delg :=
  if hasRepl (utf8DecodeWhole pend) then .c none else .u u8Init

structure AutoSt where
  dele : Option Delg
  pending : List Nat
deriving Repr

def autoInit : AutoSt := ⟨none, []⟩

/-- Write of one chunk through the auto-mode stream decoder. -/
def autoWrite (st : AutoSt) (chunk : List Nat) : AutoSt × List Nat :=
  match st.dele with
  | some d =>
    let r := delgWrite d chunk
    ({ st with dele := some r.1 }, r.2)
  | none =>
    let pend := st.pending ++ chunk
    if 1024 ≤ pend.length then
      let r := delgWrite (chooseDelg pend) pend
      (⟨some r.1, []⟩, r.2)
    else (⟨none, pend⟩, [])

/-- End call of the auto-mode stream decoder. -/
def autoEnd (st : AutoSt) : List Nat :=
  match st.dele with
  | some d =>
    let r := delgWrite d st.pending
    r.2 ++ delgEnd r.1
  | none =>
    if st.pending = [] then []
    else
      let r := delgWrite (chooseDelg st.pending) st.pending
      r.2 ++ delgEnd r.1

/-- Feed two chunks through the auto-mode stream decoder and end. -/
def autoRun2 (b1 b2 : List Nat) : List Nat :=
  (autoWrite autoInit b1).2 ++ (autoWrite (autoWrite autoInit b1).1 b2).2 ++
    autoEnd (autoWrite (autoWrite autoInit b1).1 b2).1

theorem hasRepl_of_bad (its : List U8Item)
    (h : its.all (fun i => !(isBad i)) = false) :
    hasRepl (its.map itemChar) = true := by
  induction its with
  | nil => simp at h
  | cons i rest ih =>
    cases i with
    | bad => simp [itemChar, hasRepl]
    | cp n =>
      simp only [List.all_cons, isBad, Bool.not_false, Bool.true_and] at h
      by_cases hn : n = 0xFFFD <;> simp [itemChar, hasRepl, hn, ih h]

/-- Invalid UTF-8 input always shows a replacement character in the
whole decode, hence is detected at the decision point. -/
theorem hasRepl_of_invalid (bs : List Nat) (h : validUtf8 bs = false) :
    hasRepl (utf8DecodeWhole bs) = true :=
  hasRepl_of_bad (utf8Items bs) h

/-- Helper: the first auto-mode write while undecided and under the
byte threshold only buffers. -/
theorem autoWrite_buffer (p chunk : List Nat)
    (h : ¬ 1024 ≤ (p ++ chunk).length) :
    autoWrite ⟨none, p⟩ chunk = (⟨none, p ++ chunk⟩, []) := by
  simp only [autoWrite]
  rw [if_neg (by simpa using h)]

/-- Helper: a write while undecided that reaches the threshold decides
and replays the pending buffer through the chosen delegate. -/
theorem autoWrite_decide (p chunk : List Nat)
    (h : 1024 ≤ (p ++ chunk).length) :
    autoWrite ⟨none, p⟩ chunk =
      (⟨some (delgWrite (chooseDelg (p ++ chunk)) (p ++ chunk)).1, []⟩,
        (delgWrite (chooseDelg (p ++ chunk)) (p ++ chunk)).2) := by
  simp only [autoWrite]
  rw [if_pos (by simpa using h)]

/-- Helper: a write after the decision streams through the delegate. -/
theorem autoWrite_delegated (d : Delg) (p chunk : List Nat) :
    autoWrite ⟨some d, p⟩ chunk =
      (⟨some (delgWrite d chunk).1, p⟩, (delgWrite d chunk).2) := by
  simp [autoWrite]

/-- Helper: streaming a whole byte list through the UTF-8 delegate and
ending equals the whole-buffer decode. -/
theorem delg_u_whole (bs : List Nat) :
    (delgWrite (.u u8Init) bs).2 ++ delgEnd (delgWrite (.u u8Init) bs).1 =
      utf8DecodeWhole bs := by
  simp [delgWrite, delgEnd, utf8DecodeWhole, utf8Items]

/-- Helper: streaming a whole byte list through the legacy delegate and
ending equals the whole-buffer legacy decode. -/
theorem delg_c_whole (bs : List Nat) :
    (delgWrite (.c none) bs).2 ++ delgEnd (delgWrite (.c none) bs).1 =
      cp932DecodeWhole bs := by
  simp [delgWrite, delgEnd, cp932DecodeWhole, cp932Items]

/-- C1. Amended claim. (1) For every byte sequence and every two-chunk
split at any boundary, including mid multi-byte sequence, the explicit
UTF-8 stream decoder yields the same final text as decoding the whole
sequence at once. (2) The auto-mode stream decoder does the same for a
valid UTF-8 sequence - mid multi-byte splits included - provided the
decoded text contains no U+FFFD character and, only when the first
chunk alone reaches the 1024-byte decision threshold, the UTF-8 decode
of that first chunk also shows no U+FFFD: a replacement character seen
at a decision point is what commits the decoder to the legacy code
page, and a below-threshold first chunk never reaches a decision point
on its own, so its split position is unrestricted. -/
theorem c1_stream_decoder_split :
    (∀ b1 b2 : List Nat, utf8Run2 b1 b2 = utf8DecodeWhole (b1 ++ b2)) ∧
    (∀ b1 b2 : List Nat, validUtf8 (b1 ++ b2) = true →
      hasRepl (utf8DecodeWhole (b1 ++ b2)) = false →
      (1024 ≤ b1.length → hasRepl (utf8DecodeWhole b1) = false) →
      autoRun2 b1 b2 = utf8DecodeWhole (b1 ++ b2)) := by
  constructor
  · intro b1 b2
    unfold utf8Run2 utf8Write utf8End utf8DecodeWhole utf8Items
    rw [u8Run_append]
    simp [List.map_append, List.append_assoc]
  · intro b1 b2 _ hall hfirst
    unfold autoRun2 autoInit
    by_cases hb1 : 1024 ≤ b1.length
    · have e1 := autoWrite_decide [] b1 (by simpa using hb1)
      simp only [List.nil_append] at e1
      rw [e1]
      simp only [chooseDelg, hfirst hb1, if_false, Bool.false_eq_true]
      rw [autoWrite_delegated]
      simp only [delgWrite, autoEnd, u8Run, delgEnd, List.nil_append,
        List.map_nil, utf8DecodeWhole, utf8Items]
      rw [u8Run_append]
      simp [List.map_append, List.append_assoc]
    · have e1 := autoWrite_buffer [] b1 (by simpa using hb1)
      simp only [List.nil_append] at e1
      rw [e1]
      by_cases hb12 : 1024 ≤ (b1 ++ b2).length
      · rw [autoWrite_decide b1 b2 hb12]
        simp only [chooseDelg, hall, if_false, Bool.false_eq_true]
        simp [autoEnd, delgWrite, u8Run, delgEnd, utf8DecodeWhole, utf8Items]
      · rw [autoWrite_buffer b1 b2 hb12]
        simp only [List.append_nil, List.nil_append]
        rcases hcase : b1 ++ b2 with _ | ⟨x, xs⟩
        · simp [autoEnd, utf8DecodeWhole, utf8Items, u8Run, u8Flush, u8Init]
        · rw [← hcase]
          have hne : b1 ++ b2 ≠ [] := by simp [hcase]
          simp only [autoEnd, hne, if_false]
          simp only [chooseDelg, hall, if_false, Bool.false_eq_true]
          exact delg_u_whole (b1 ++ b2)

/-- C1 witness: a two-byte character split mid-sequence between the two
chunks - the claim form central case - satisfies the hypotheses and the
auto decoder reproduces the whole-buffer decode. -/
theorem c1_stream_decoder_split_witness :
    validUtf8 ([0xC3] ++ [0xA9]) = true ∧
    hasRepl (utf8DecodeWhole ([0xC3] ++ [0xA9])) = false ∧
    autoRun2 [0xC3] [0xA9] = utf8DecodeWhole ([0xC3] ++ [0xA9]) :=
  ⟨by decide, by decide,
    c1_stream_decoder_split.2 [0xC3] [0xA9] (by decide) (by decide)
      (by decide)⟩

/-- C1 counterexample: the three bytes EF BF BD are valid UTF-8 (they
encode U+FFFD), yet the auto-mode stream decoder fed the split
[EF] then [BF, BD] commits to the legacy code page at `end()` and
produces a different final text than whole-sequence UTF-8 decoding, so
the claim as stated (split-invariance for the auto-mode decoder on all
valid UTF-8 input) is false. -/
theorem c1_counterexample :
    validUtf8 ([0xEF] ++ [0xBF, 0xBD]) = true ∧
    autoRun2 [0xEF] [0xBF, 0xBD] ≠ utf8DecodeWhole ([0xEF] ++ [0xBF, 0xBD]) := by
  constructor
  · decide
  · decide

/-- Running the UTF-8 decoder over ASCII bytes emits them unchanged. -/
theorem u8Run_ascii (n : Nat) :
    u8Run u8Init (List.replicate n 0x61) = (u8Init, List.replicate n (U8Item.cp 0x61)) := by
  induction n with
  | zero => simp [u8Run]
  | succ k ih =>
    have h : u8Step u8Init 0x61 = (u8Init, [U8Item.cp 0x61]) := by decide
    simp [List.replicate_succ, u8Run, h, ih]

/-- Running the legacy decoder over ASCII bytes emits them unchanged. -/
theorem cpRun_ascii (n : Nat) :
    cpRun none (List.replicate n 0x61) = (none, List.replicate n (U8Item.cp 0x61)) := by
  induction n with
  | zero => simp [cpRun]
  | succ k ih =>
    have h : cpStep none 0x61 = (none, [U8Item.cp 0x61]) := by decide
    simp [List.replicate_succ, cpRun, h, ih]

theorem hasRepl_ascii (n : Nat) : hasRepl (List.replicate n 0x61) = false := by
  rw [← Bool.not_eq_true, hasRepl_iff]
  simp [List.mem_replicate]

/-- C7. Amended claim: for a byte sequence that is invalid UTF-8 (and in
particular one that is valid in the legacy code page), fed to the
auto-mode stream decoder in two chunks, the output equals the direct
whole-sequence legacy decode provided the first decision window already
shows the invalidity: when the first chunk alone reaches the 1024-byte
threshold its own UTF-8 decode must contain a replacement character
(which commits the decoder to the legacy code page right there); a
first chunk under the threshold needs no extra condition, because every
later decision point buffers the whole sequence, whose decode contains
a replacement character by invalidity. Only a clean-UTF-8 first window
of at least 1024 bytes makes the decoder commit to UTF-8 before the
invalid bytes arrive (see the counterexample). -/
theorem c7_auto_legacy_fallback (b1 b2 : List Nat)
    (hinv : validUtf8 (b1 ++ b2) = false)
    (_ : validCp932 (b1 ++ b2) = true)
    (hfirst : 1024 ≤ b1.length → hasRepl (utf8DecodeWhole b1) = true) :
    autoRun2 b1 b2 = cp932DecodeWhole (b1 ++ b2) := by
  unfold autoRun2 autoInit
  by_cases hb1 : 1024 ≤ b1.length
  · have e1 := autoWrite_decide [] b1 (by simpa using hb1)
    simp only [List.nil_append] at e1
    rw [e1]
    simp only [chooseDelg, hfirst hb1, if_true]
    rw [autoWrite_delegated]
    simp only [delgWrite, autoEnd, cpRun, delgEnd, List.nil_append,
      List.map_nil, cp932DecodeWhole, cp932Items]
    rw [cpRun_append]
    simp [List.map_append, List.append_assoc]
  · have e1 := autoWrite_buffer [] b1 (by simpa using hb1)
    simp only [List.nil_append] at e1
    rw [e1]
    by_cases hb12 : 1024 ≤ (b1 ++ b2).length
    · rw [autoWrite_decide b1 b2 hb12]
      simp only [chooseDelg, hasRepl_of_invalid (b1 ++ b2) hinv, if_true]
      simp [autoEnd, delgWrite, cpRun, delgEnd, cp932DecodeWhole, cp932Items]
    · rw [autoWrite_buffer b1 b2 hb12]
      simp only [List.append_nil, List.nil_append]
      have hne : b1 ++ b2 ≠ [] := by
        intro h
        rw [h] at hinv
        exact absurd hinv (by decide)
      simp only [autoEnd, hne, if_false]
      simp only [chooseDelg, hasRepl_of_invalid (b1 ++ b2) hinv, if_true]
      exact delg_c_whole (b1 ++ b2)

/-- C7 witness: the two bytes 83 41 are invalid UTF-8 but form one valid
legacy double-byte character; auto mode decodes them like the direct
legacy decode (the threshold hypothesis is vacuous for this short first
chunk). -/
theorem c7_auto_legacy_fallback_witness :
    validUtf8 ([0x83] ++ [0x41]) = false ∧
    validCp932 ([0x83] ++ [0x41]) = true ∧
    autoRun2 [0x83] [0x41] = cp932DecodeWhole ([0x83] ++ [0x41]) :=
  ⟨by decide, by decide,
    c7_auto_legacy_fallback [0x83] [0x41] (by decide) (by decide) (by decide)⟩

/-- Helper for the C7 counterexample, with the ASCII prefix length kept
abstract so nothing is evaluated at length 1024. -/
theorem c7_ce_aux (n : Nat) (hn : 1024 ≤ n) :
    validUtf8 (List.replicate n 0x61 ++ [0x83, 0x41]) = false ∧
    validCp932 (List.replicate n 0x61 ++ [0x83, 0x41]) = true ∧
    autoRun2 (List.replicate n 0x61) [0x83, 0x41] ≠
      cp932DecodeWhole (List.replicate n 0x61 ++ [0x83, 0x41]) := by
  have hu : u8Run u8Init [0x83, 0x41] = (u8Init, [U8Item.bad, U8Item.cp 0x41]) := by
    decide
  have hc : cpRun none [0x83, 0x41] = (none, [U8Item.cp (dbcsChar 0x83 0x41)]) := by
    decide
  refine ⟨?_, ?_, ?_⟩
  · simp only [validUtf8, utf8Items, u8Run_append, u8Run_ascii, hu]
    simp [List.all_append, u8Flush, u8Init, isBad]
  · simp only [validCp932, cp932Items, cpRun_append, cpRun_ascii, hc]
    simp [List.all_append, cpFlush, List.all_eq_true, List.mem_replicate, isBad]
  · have e1 := autoWrite_decide [] (List.replicate n 0x61)
      (by simpa [List.length_replicate] using hn)
    simp only [List.nil_append] at e1
    have hchoose : chooseDelg (List.replicate n 0x61) = .u u8Init := by
      simp only [chooseDelg, utf8DecodeWhole, utf8Items, u8Run_ascii]
      simp [u8Flush, u8Init, List.map_replicate, itemChar, hasRepl_ascii]
    have hw1 : delgWrite (Delg.u u8Init) (List.replicate n 0x61) =
        (.u u8Init, List.replicate n 0x61) := by
      simp [delgWrite, u8Run_ascii, List.map_replicate, itemChar]
    have hw2 : delgWrite (Delg.u u8Init) [0x83, 0x41] =
        (.u u8Init, [0xFFFD, 0x41]) := by decide
    have hend : autoEnd ⟨some (Delg.u u8Init), []⟩ = [] := by decide
    unfold autoRun2 autoInit
    rw [e1, hchoose, hw1]
    rw [autoWrite_delegated, hw2]
    simp only [hend]
    simp only [cp932DecodeWhole, cp932Items, cpRun_append, cpRun_ascii, hc]
    intro h
    have hlen := congrArg List.length h
    simp [List.length_append, List.length_replicate, cpFlush] at hlen

/-- C7 counterexample: 1024 ASCII bytes followed by the legacy pair
83 41 form a sequence that is invalid UTF-8 and valid in the legacy code
page, yet feeding the ASCII bytes as the first chunk makes the decoder
reach the 1024-byte threshold on a clean UTF-8 prefix, commit to UTF-8,
and decode the legacy pair as a replacement character plus an ASCII
letter - not the legacy text. The claim as stated (auto mode equals
direct legacy decoding for every such sequence, however fed) is false. -/
theorem c7_counterexample :
    validUtf8 (List.replicate 1024 0x61 ++ [0x83, 0x41]) = false ∧
    validCp932 (List.replicate 1024 0x61 ++ [0x83, 0x41]) = true ∧
    autoRun2 (List.replicate 1024 0x61) [0x83, 0x41] ≠
      cp932DecodeWhole (List.replicate 1024 0x61 ++ [0x83, 0x41]) :=
  c7_ce_aux 1024 (Nat.le_refl 1024)

/-! ## Record parsing and sample extraction

Model of `parseRos2EchoMessageLines` and `handleEchoText` in
src/extension.ts (lines 796-893). Text is a list of code points;
JS Map objects become insertion-ordered association lists. -/

/-- The JS whitespace class, restricted to its ASCII members, which are
the only ones these text protocols produce. -/
def jsWs (c : Nat) : Bool :=
  c = 32 ∨ c = 9 ∨ c = 10 ∨ c = 11 ∨ c = 12 ∨ c = 13

/-- JS `String.trim()`. -/
def trimList (l : List Nat) : List Nat :=
  ((l.dropWhile jsWs).reverse.dropWhile jsWs).reverse

/-- Insertion-ordered map update, mirroring JS `Map.set`: an existing
key keeps its position and gets the new value, a new key is appended. -/
def aset {α : Type} : List (List Nat × α) → List Nat → α → List (List Nat × α)
  | [], k, v => [(k, v)]
  | (k', v') :: rest, k, v =>
    if k' = k then (k, v) :: rest else (k', v') :: aset rest k v

/-- Map lookup, mirroring JS `Map.get`. -/
def aget {α : Type} : List (List Nat × α) → List Nat → Option α
  | [], _ => none
  | (k', v') :: rest, k => if k' = k then some v' else aget rest k

/-- Match one line against the key-value pattern
(leading whitespace)(key up to the first colon, starting with a
non-space non-colon character)(colon)(whitespace)(rest), returning
(indent width, trimmed key, rest) or nothing. -/
def matchKeyValue (line : List Nat) : Option (Nat × List Nat × List Nat) :=
  let ws := line.takeWhile jsWs
  let rest := line.dropWhile jsWs
  match rest with
  | [] => none
  | c :: _ =>
    if c = 58 then none
    else
      let keyPart := rest.takeWhile (fun x => x ≠ 58)
      match rest.dropWhile (fun x => x ≠ 58) with
      | [] => none
      | _ :: afterColon =>
        some (ws.length, trimList keyPart, afterColon.dropWhile jsWs)

/-- Parser state while scanning record lines: the indent stack (top
first) of (indent width, key) pairs, and the value map built so far. -/
structure PLines where
  stack : List (Nat × List Nat)
  values : List (List Nat × List Nat)

/-- Process one record line: skip blanks, comments and list items;
otherwise pop the indent stack while the line indent is at most the top
indent, then either push a nesting header (empty value) or record the
dotted path for a leaf. -/
def processLine (st : PLines) (raw : List Nat) : PLines :=
  let line := raw.filter (fun c => c ≠ 13)
  let trimmed := trimList line
  if trimmed = [] then st
  else if trimmed.head? = some 35 then st
  else
    match trimmed with
    | 45 :: 32 :: _ => st
    | _ =>
      match matchKeyValue line with
      | none => st
      | some (indent, key, rest) =>
        let stack := st.stack.dropWhile (fun e => indent ≤ e.1)
        if trimList rest = [] then ⟨(indent, key) :: stack, st.values⟩
        else
          let path := List.intercalate [46] ((stack.map Prod.snd).reverse ++ [key])
          ⟨stack, aset st.values path (trimList rest)⟩

/-- Build the dotted-path value map of one record from its lines. -/
def parseRos2EchoValues (lines : List (List Nat)) : List (List Nat × List Nat) :=
  (lines.foldl processLine ⟨[], []⟩).values

/-! JS numbers are modelled by `Q`, an executable exact-rational type
(values are kept normalized, so structural equality is value equality). -/

structure Q where
  n : Int
  d : Int
deriving DecidableEq, Repr

/-- Normalized rational n / d (canonical sign, coprime, 0 is 0/1). -/
def qnorm (n d : Int) : Q :=
  let s : Int := if d < 0 then -1 else 1
  let n1 := s * n
  let d1 := s * d
  let g : Int := Int.ofNat (Nat.gcd n1.natAbs d1.natAbs)
  if g = 0 then ⟨0, 1⟩ else ⟨n1.tdiv g, d1.tdiv g⟩

def qadd (a b : Q) : Q := qnorm (a.n * b.d + b.n * a.d) (a.d * b.d)

def qmul (a b : Q) : Q := qnorm (a.n * b.n) (a.d * b.d)

def qdiv (a b : Q) : Q := qnorm (a.n * b.d) (a.d * b.n)

def qneg (a : Q) : Q := ⟨-a.n, a.d⟩

def qofNat (k : Nat) : Q := ⟨Int.ofNat k, 1⟩

def qofInt (i : Int) : Q := ⟨i, 1⟩

def qpow (a : Q) : Nat → Q
  | 0 => ⟨1, 1⟩
  | k + 1 => qmul (qpow a k) a

/-- JS `Number.parseFloat`, returning the parsed value and the
unconsumed remainder; `none` for input with no leading decimal literal
(NaN) and for an Infinity literal (not finite). The model is exact
rational arithmetic, so a finite JS double rounding is not modelled. -/
def parseFloatCore (s : List Nat) : Option (Q × List Nat) :=
  let isDigit : Nat → Bool := fun c => 48 ≤ c ∧ c ≤ 57
  let digitsVal : List Nat → Nat := fun l => l.foldl (fun a d => a * 10 + (d - 48)) 0
  let s1 := s.dropWhile jsWs
  let signed : Bool × List Nat :=
    match s1 with
    | 45 :: r => (true, r)
    | 43 :: r => (false, r)
    | r => (false, r)
  let neg := signed.1
  let s2 := signed.2
  let ip := s2.takeWhile isDigit
  let r1 := s2.dropWhile isDigit
  let fpr : List Nat × List Nat :=
    match r1 with
    | 46 :: r => (r.takeWhile isDigit, r.dropWhile isDigit)
    | r => ([], r)
  let fp := fpr.1
  let r2 := fpr.2
  if ip = [] ∧ fp = [] then none
  else
    let mant : Q := qadd (qofNat (digitsVal ip))
      (qdiv (qofNat (digitsVal fp)) (qpow (qofNat 10) fp.length))
    let er : Q × List Nat :=
      match r2 with
      | 101 :: rest | 69 :: rest =>
        let esigned : Bool × List Nat :=
          match rest with
          | 45 :: rr => (true, rr)
          | 43 :: rr => (false, rr)
          | rr => (false, rr)
        let ed := esigned.2.takeWhile isDigit
        if ed = [] then (mant, r2)
        else if esigned.1 then
          (qdiv mant (qpow (qofNat 10) (digitsVal ed)), esigned.2.dropWhile isDigit)
        else (qmul mant (qpow (qofNat 10) (digitsVal ed)), esigned.2.dropWhile isDigit)
      | _ => (mant, r2)
    some (if neg then qneg er.1 else er.1, er.2)

/-- JS `Number.parseFloat` with a finite result (`Number.isFinite`). -/
def parseFloatQ (s : List Nat) : Option Q :=
  (parseFloatCore s).map Prod.fst

/-- JS `Number.parseInt(s, 10)` with a finite result. -/
def parseIntQ (s : List Nat) : Option Int :=
  let isDigit : Nat → Bool := fun c => 48 ≤ c ∧ c ≤ 57
  let s1 := s.dropWhile jsWs
  let signed : Bool × List Nat :=
    match s1 with
    | 45 :: r => (true, r)
    | 43 :: r => (false, r)
    | r => (false, r)
  let ds := signed.2.takeWhile isDigit
  if ds = [] then none
  else
    let v : Int := ds.foldl (fun a d => a * 10 + ((d : Int) - 48)) 0
    some (if signed.1 then -v else v)

/-- Model of parseScalarToNumber (src/extension.ts lines 797-804): trim, strip
one trailing comma, strip one leading and one trailing quote character
independently, map true/false case-insensitively, else parse a leading
float literal. -/
def parseScalarToNumber (raw : List Nat) : Option Q :=
  let s0 := trimList raw
  let s1 := match s0.getLast? with
    | some 44 => s0.dropLast
    | _ => s0
  let s2a := match s1 with
    | c :: r => if c = 39 ∨ c = 34 then r else s1
    | [] => s1
  let s2 := match s2a.getLast? with
    | some c => if c = 39 ∨ c = 34 then s2a.dropLast else s2a
    | none => s2a
  let lower := s2.map (fun c => if 65 ≤ c ∧ c ≤ 90 then c + 32 else c)
  if lower = str "true" then some (qofNat 1)
  else if lower = str "false" then some (qofNat 0)
  else parseFloatQ s2

/-- Timestamp lookup of `parseRos2EchoMessageLines`: header.stamp.sec
and nanosec with stamp.sec / stamp.nanosec fallbacks. -/
def stampOf (values : List (List Nat × List Nat)) : Option Q :=
  let secStr := match aget values (str "header.stamp.sec") with
    | some s => some s
    | none => aget values (str "stamp.sec")
  let nsecStr := match aget values (str "header.stamp.nanosec") with
    | some s => some s
    | none => aget values (str "stamp.nanosec")
  match secStr with
  | none => none
  | some ss =>
    let nsecVal : Option Int := match nsecStr with
      | none => some 0
      | some ns => parseIntQ ns
    match parseIntQ ss, nsecVal with
    | some sec, some ns =>
      some (qadd (qofInt sec) (qdiv (qofInt ns) (qofNat 1000000000)))
    | _, _ => none

/-- Value selection and conversion of `parseRos2EchoMessageLines`:
a non-empty field path is looked up exactly; in auto mode the path
`data` is preferred, else the scan takes the first entry whose scalar
parses to a finite number under plain `Number.parseFloat`; the chosen
scalar is then converted by `parseScalarToNumber`. -/
def extractSample (values : List (List Nat × List Nat)) (fieldPath : List Nat) :
    Option (Q × Option Q) :=
  let vStr : Option (List Nat) :=
    match fieldPath with
    | [] =>
      match aget values (str "data") with
      | some v => some v
      | none =>
        match values.find? (fun p => (parseFloatQ p.2).isSome) with
        | some p => some p.2
        | none => none
    | _ => aget values fieldPath
  match vStr with
  | none => none
  | some vs =>
    match parseScalarToNumber vs with
    | none => none
    | some v => some (v, stampOf values)

/-- Model of parseRos2EchoMessageLines: build the value map
from the record lines, then extract at most one numeric sample. -/
def parseRos2EchoMessageLines (lines : List (List Nat)) (fieldPath : List Nat) :
    Option (Q × Option Q) :=
  extractSample (parseRos2EchoValues lines) fieldPath

/-! Record grouping of `handleEchoText`: carry an unterminated trailing
fragment across chunks, split on newline, and emit a record at each
literal delimiter line. -/

/-- Split a text on code point 10, JS `combined.split(NEWLINE_RE)`:
always returns at least one (possibly empty) segment. -/
def splitNl : List Nat → List (List Nat)
  | [] => [[]]
  | c :: rest =>
    if c = 10 then [] :: splitNl rest
    else
      match splitNl rest with
      | [] => [[c]]
      | h :: t => (c :: h) :: t

/-- Per-subscription parse state of `handleEchoText`. -/
structure EchoSt where
  carry : List Nat
  msgLines : List (List Nat)

/-- Process the complete lines of one chunk: a delimiter line finalizes
the accumulated record, other lines accumulate. -/
def processParts (fieldPath : List Nat) :
    List (List Nat) → List (List Nat) → List (List Nat) × List (Q × Option Q)
  | msgLines, [] => (msgLines, [])
  | msgLines, line :: rest =>
    if trimList line = str "---" then
      let out := (parseRos2EchoMessageLines msgLines fieldPath).toList
      let r := processParts fieldPath [] rest
      (r.1, out ++ r.2)
    else processParts fieldPath (msgLines ++ [line]) rest

/-- Model of handleEchoText: append the chunk to the carried fragment, split on
newline, keep the final segment as the new fragment, and process the
complete lines, emitting the samples of finalized records. -/
def handleEchoText (st : EchoSt) (text : List Nat) (fieldPath : List Nat) :
    EchoSt × List (Q × Option Q) :=
  let combined := st.carry ++ text
  let parts := splitNl combined
  let r := processParts fieldPath st.msgLines parts.dropLast
  (⟨(parts.getLast?).getD [], r.1⟩, r.2)

/-- JS Map.set then Map.get on the same key returns the new value:
later occurrences of a path overwrite earlier ones. -/
theorem aget_aset {α : Type} (m : List (List Nat × α)) (k : List Nat) (v : α) :
    aget (aset m k v) k = some v := by
  induction m with
  | nil => simp [aset, aget]
  | cons p rest ih =>
    by_cases h : p.1 = k
    · simp [aset, h, aget]
    · simp [aset, h, aget, ih]

/-- C2. The record parser builds dotted paths with the indent stack as
claimed: the nested input of P3 yields path twist.linear.x bound to the
scalar 1.5 (both at the value-map level and through the delimiter-driven
pipeline of handleEchoText, where auto extraction then yields 3/2);
closing a nesting level pops the stack (path c, not a.c); and a later
occurrence of the same path overwrites the earlier one. -/
theorem c2_indent_stack_paths :
    aget (parseRos2EchoValues [str "twist:", str "  linear:", str "    x: 1.5"])
        (str "twist.linear.x") = some (str "1.5") ∧
    (handleEchoText ⟨[], []⟩ (str "twist:\n  linear:\n    x: 1.5\n---\n") []).2 =
        [(qnorm 3 2, none)] ∧
    aget (parseRos2EchoValues [str "a:", str "  b: 1", str "c: 2"]) (str "a.b") =
        some (str "1") ∧
    aget (parseRos2EchoValues [str "a:", str "  b: 1", str "c: 2"]) (str "c") =
        some (str "2") ∧
    (∀ (m : List (List Nat × List Nat)) (k v : List Nat),
      aget (aset m k v) k = some v) :=
  ⟨by decide, by decide, by decide, by decide, fun m k v => aget_aset m k v⟩

/-- The value selector written from the claim wording of C3: in auto
mode, scan the record in insertion order and take the first entry whose
scalar parses as numeric under the scalar-to-number rule. The code
instead scans with plain parseFloat; compare `extractSample`. -/
def specAutoValue (values : List (List Nat × List Nat)) : Option Q :=
  match aget values (str "data") with
  | some v => parseScalarToNumber v
  | none =>
    match values.find? (fun p => (parseScalarToNumber p.2).isSome) with
    | some p => parseScalarToNumber p.2
    | none => none

/-- C3. Amended claim: a non-empty fieldPath is looked up exactly and an
absent path yields no sample; auto mode prefers path `data`, else scans
insertion order taking the first entry whose scalar has a finite plain
parseFloat value (not the full scalar-to-number rule), converts the
chosen scalar with the scalar-to-number rule, and yields no sample when
no such entry exists. The P4 instances hold: data 3.14 gives 157/50,
and a.b 2 with no data gives 2. -/
theorem c3_extractor_selection :
    (∀ (values : List (List Nat × List Nat)) (fp : List Nat), fp ≠ [] →
      aget values fp = none → extractSample values fp = none) ∧
    parseRos2EchoMessageLines [str "data: 3.14"] [] = some (qnorm 157 50, none) ∧
    parseRos2EchoMessageLines [str "a:", str "  b: 2"] [] = some (qofNat 2, none) ∧
    (∀ values : List (List Nat × List Nat), aget values (str "data") = none →
      values.find? (fun p => (parseFloatQ p.2).isSome) = none →
      extractSample values [] = none) ∧
    (∀ (values : List (List Nat × List Nat)) (p : List Nat × List Nat),
      aget values (str "data") = none →
      values.find? (fun q => (parseFloatQ q.2).isSome) = some p →
      extractSample values [] =
        match parseScalarToNumber p.2 with
        | none => none
        | some v => some (v, stampOf values)) := by
  refine ⟨?_, by decide, by decide, ?_, ?_⟩
  · intro values fp hne habs
    match fp with
    | [] => exact absurd rfl hne
    | c :: r => simp [extractSample, habs]
  · intro values h1 h2
    simp [extractSample, h1, h2]
  · intro values p h1 h2
    simp [extractSample, h1, h2]

/-- C3 witness: concrete discharge of the hypothesis-bearing parts. -/
theorem c3_extractor_selection_witness :
    extractSample [(str "a", str "xyz")] (str "b") = none ∧
    extractSample [(str "a", str "xyz")] [] = none :=
  ⟨c3_extractor_selection.1 [(str "a", str "xyz")] (str "b") (by decide) (by decide),
    c3_extractor_selection.2.2.2.1 [(str "a", str "xyz")] (by decide) (by decide)⟩

/-- C3 counterexample: the record built from the single line a: true has
no `data` path and its only scalar, true, is numeric under the
scalar-to-number rule (value 1), so the claimed selection yields a
sample of 1; the code yields no sample, because its scan uses plain
parseFloat, under which true is not numeric. -/
theorem c3_counterexample :
    aget (parseRos2EchoValues [str "a: true"]) (str "data") = none ∧
    specAutoValue (parseRos2EchoValues [str "a: true"]) = some (qofNat 1) ∧
    parseRos2EchoMessageLines [str "a: true"] [] = none := by
  refine ⟨by decide, by decide, by decide⟩

/-- Full-string decimal/float literal parse, written from the claim
wording of C6 (non-parseable input is not numeric, with no prefix
semantics): the literal must consume the entire string. -/
def parseFloatFull (s : List Nat) : Option Q :=
  match parseFloatCore s with
  | some (q, []) => some q
  | _ => none

/-- The scalar-to-number rule written from the claim wording of C6:
trim, strip one trailing comma, strip a single layer of surrounding
MATCHING quotes (only when the first and last characters are the same
quote character), map true/false case-insensitively, else parse a full
decimal/float literal. Compare `parseScalarToNumber`. -/
def specScalarToNumber (raw : List Nat) : Option Q :=
  let s0 := trimList raw
  let s1 := match s0.getLast? with
    | some 44 => s0.dropLast
    | _ => s0
  let s2 :=
    if 2 ≤ s1.length ∧ s1.head? = s1.getLast? ∧
        (s1.head? = some 39 ∨ s1.head? = some 34) then
      s1.tail.dropLast
    else s1
  let lower := s2.map (fun c => if 65 ≤ c ∧ c ≤ 90 then c + 32 else c)
  if lower = str "true" then some (qofNat 1)
  else if lower = str "false" then some (qofNat 0)
  else parseFloatFull s2

/-- C6. Amended claim: the conversion trims, strips one trailing comma,
then strips one leading quote and one trailing quote independently (the
two need not match and a single-sided quote is also stripped), maps
true/false case-insensitively, and otherwise takes the leading
decimal/float literal prefix of the string; input with no such prefix is
not numeric. The P8 instances hold: 42, gives 42, quoted true gives 1,
abc is not numeric. -/
theorem c6_scalar_to_number :
    parseScalarToNumber (str "42,") = some (qofNat 42) ∧
    parseScalarToNumber (str "'true'") = some (qofNat 1) ∧
    parseScalarToNumber (str "abc") = none ∧
    parseScalarToNumber (str "'true") = some (qofNat 1) ∧
    parseScalarToNumber (str "'42\"") = some (qofNat 42) ∧
    parseScalarToNumber (str "TRUE") = some (qofNat 1) ∧
    parseScalarToNumber (str "False") = some (qofNat 0) ∧
    parseScalarToNumber (str " -1.5e2 ") = some (qneg (qofNat 150)) ∧
    parseScalarToNumber (str "42abc") = some (qofNat 42) := by
  refine ⟨by decide, by decide, by decide, by decide, by decide, by decide,
    by decide, by decide, by decide⟩

/-- C6 counterexample: on the input consisting of a quote followed by
true, the quotes are not a surrounding matching pair, so the rule as
claimed leaves the string alone and reports it as not numeric; the code
strips the lone leading quote and returns 1. -/
theorem c6_counterexample :
    parseScalarToNumber (str "'true") = some (qofNat 1) ∧
    specScalarToNumber (str "'true") = none := by
  refine ⟨by decide, by decide⟩

/-! ## Channel sample store (webview state)

Model of the message handler of media/topicPanel.js: the per-topic
sample buffers, the waveform configuration, and the appendSample /
setWaveformConfig events. A sample is a (t, v) pair of JS numbers. -/

structure WCfg where
  fieldPath : List Nat
  maxPoints : Nat
  throttleMs : Nat
deriving DecidableEq, Repr

structure WState where
  active : List (List Nat)
  samples : List (List Nat × List (Q × Q))
  config : WCfg
deriving DecidableEq, Repr

/-- Capacity enforcement: `arr.splice(0, arr.length - maxPoints)` when
over capacity, dropping the oldest entries from the front. -/
def trimCap {α : Type} (cap : Nat) (l : List α) : List α :=
  if cap < l.length then l.drop (l.length - cap) else l

/-- The appendSample message handler (media/topicPanel.js lines
269-285): drop events with an empty topic, with a topic neither active
nor already buffered, or with a non-finite value (`v = none`); accept
late samples for an inactive topic that still has a buffer; when the
event carries no finite timestamp (`tIn = none`) use the wall-clock
receipt time `now`; append and trim to capacity. -/
def handleAppendSample (st : WState) (topic : List Nat) (v : Option Q)
    (tIn : Option Q) (now : Q) : WState :=
  if topic = [] then st
  else if topic ∉ st.active ∧ aget st.samples topic = none then st
  else
    match v with
    | none => st
    | some x =>
      let t := tIn.getD now
      let arr := (aget st.samples topic).getD []
      { st with
        samples := aset st.samples topic
          (trimCap st.config.maxPoints (arr ++ [(t, x)])) }

/-- The setWaveformConfig message handler (media/topicPanel.js lines
253-268): clamp maxPoints to at least 100 (absent or zero becomes
2000), clamp throttleMs to at least 0 (absent becomes 50), and re-trim
every existing buffer to the new capacity. -/
def handleSetWaveformConfig (st : WState) (fp : List Nat)
    (mp th : Option Int) : WState :=
  let mpRaw : Int := match mp with
    | none => 2000
    | some k => if k = 0 then 2000 else k
  let maxPts : Nat := (max 100 mpRaw).toNat
  let thRaw : Int := match th with
    | none => 50
    | some k => k
  let thr : Nat := (max 0 thRaw).toNat
  { active := st.active,
    samples := st.samples.map (fun p => (p.1, trimCap maxPts p.2)),
    config := ⟨fp, maxPts, thr⟩ }

/-- Trimming is exactly keeping the newest entries: a drop from the
front down to at most `cap` elements. -/
theorem trimCap_eq_drop {α : Type} (cap : Nat) (l : List α) :
    trimCap cap l = l.drop (l.length - cap) := by
  unfold trimCap
  split
  · rfl
  · have h : l.length - cap = 0 := by omega
    simp [h]

theorem trimCap_length {α : Type} (cap : Nat) (l : List α) :
    (trimCap cap l).length = min l.length cap := by
  rw [trimCap_eq_drop, List.length_drop]
  omega

/-- Membership after a map update: an entry is the updated one or an
untouched old one. -/
theorem mem_aset {α : Type} (m : List (List Nat × α)) (k : List Nat) (v : α)
    (p : List Nat × α) (hp : p ∈ aset m k v) : p = (k, v) ∨ p ∈ m := by
  induction m with
  | nil => simpa [aset] using hp
  | cons q rest ih =>
    by_cases h : q.1 = k
    · rw [aset, if_pos h] at hp
      rcases List.mem_cons.mp hp with hp1 | hp1
      · exact Or.inl hp1
      · exact Or.inr (List.mem_cons_of_mem _ hp1)
    · rw [aset, if_neg h] at hp
      rcases List.mem_cons.mp hp with hp1 | hp1
      · exact Or.inr (by simp [hp1])
      · rcases ih hp1 with h1 | h1
        · exact Or.inl h1
        · exact Or.inr (List.mem_cons_of_mem _ h1)

/-- Appending one numbered sample (value and timestamp i, wall clock 0)
to the demo channel, used for the concrete eviction instance. -/
def c4demoStep (st : WState) (i : Nat) : WState :=
  handleAppendSample st (str "/t") (some (qofNat i)) (some (qofNat i)) (qofNat 0)

/-- C4. Every per-channel buffer keeps length at most the configured
capacity: appending preserves the bound (dropping the oldest entries
from the front when over capacity), and replacing the configuration
re-trims every existing buffer to the new capacity, keeping exactly the
newest entries otherwise unchanged. With capacity 3, appending samples
1..5 in order leaves exactly the samples 3, 4, 5 in order. -/
theorem c4_buffer_capacity :
    (∀ (st : WState) (topic : List Nat) (v tIn : Option Q) (now : Q),
      (∀ p ∈ st.samples, p.2.length ≤ st.config.maxPoints) →
      ∀ p ∈ (handleAppendSample st topic v tIn now).samples,
        p.2.length ≤ st.config.maxPoints) ∧
    (∀ (st : WState) (fp : List Nat) (mp th : Option Int),
      (handleSetWaveformConfig st fp mp th).samples =
        st.samples.map (fun p =>
          (p.1, trimCap (handleSetWaveformConfig st fp mp th).config.maxPoints p.2)) ∧
      ∀ p ∈ (handleSetWaveformConfig st fp mp th).samples,
        p.2.length ≤ (handleSetWaveformConfig st fp mp th).config.maxPoints) ∧
    (∀ (cap : Nat) (l : List (Q × Q)), trimCap cap l = l.drop (l.length - cap)) ∧
    aget (([1, 2, 3, 4, 5].foldl c4demoStep ⟨[str "/t"], [], ⟨[], 3, 0⟩⟩).samples)
        (str "/t") =
      some [(qofNat 3, qofNat 3), (qofNat 4, qofNat 4), (qofNat 5, qofNat 5)] := by
  refine ⟨?_, ?_, fun cap l => trimCap_eq_drop cap l, by decide⟩
  · intro st topic v tIn now hinv p hp
    cases v with
    | none =>
      unfold handleAppendSample at hp
      split_ifs at hp <;> exact hinv p hp
    | some x =>
      unfold handleAppendSample at hp
      split_ifs at hp
      · exact hinv p hp
      · exact hinv p hp
      · simp only at hp
        rcases mem_aset _ _ _ _ hp with h | h
        · rw [h]
          simp [trimCap_length]
        · exact hinv p h
  · intro st fp mp th
    constructor
    · rfl
    · intro p hp
      simp only [handleSetWaveformConfig] at hp ⊢
      rcases List.mem_map.mp hp with ⟨q, _, rfl⟩
      simp [trimCap_length]

/-- C4 witness: concrete discharge of the hypothesis-bearing parts. -/
theorem c4_buffer_capacity_witness :
    (∀ p ∈ (handleAppendSample ⟨[str "/t"], [], ⟨[], 3, 0⟩⟩ (str "/t")
        (some (qofNat 1)) none (qofNat 0)).samples, p.2.length ≤ 3) ∧
    (handleSetWaveformConfig ⟨[], [(str "/t", [(qofNat 1, qofNat 1)])], ⟨[], 3, 0⟩⟩
        [] (some 100) none).samples =
      [(str "/t", [(qofNat 1, qofNat 1)])] :=
  ⟨c4_buffer_capacity.1 ⟨[str "/t"], [], ⟨[], 3, 0⟩⟩ (str "/t") (some (qofNat 1))
      none (qofNat 0) (by simp),
    by
      have h := (c4_buffer_capacity.2.1
        ⟨[], [(str "/t", [(qofNat 1, qofNat 1)])], ⟨[], 3, 0⟩⟩ [] (some 100) none).1
      rw [h]
      decide⟩

/-- C10. The appendSample handler is guarded exactly as claimed: a
non-finite value, an empty channel name, or a channel neither active
nor already buffered is silently dropped leaving the state unchanged;
an inactive channel that still has a buffer accepts the sample (late
sample after uncheck); the sample is appended with the event timestamp
when it carries a finite one and with the wall-clock receipt time
otherwise. -/
theorem c10_append_sample_guards :
    (∀ (st : WState) (topic : List Nat) (tIn : Option Q) (now : Q),
      handleAppendSample st topic none tIn now = st) ∧
    (∀ (st : WState) (v tIn : Option Q) (now : Q),
      handleAppendSample st [] v tIn now = st) ∧
    (∀ (st : WState) (topic : List Nat) (v tIn : Option Q) (now : Q),
      topic ∉ st.active → aget st.samples topic = none →
      handleAppendSample st topic v tIn now = st) ∧
    (∀ (st : WState) (topic : List Nat) (x : Q) (tIn : Option Q) (now : Q)
        (arr : List (Q × Q)),
      topic ≠ [] → topic ∉ st.active → aget st.samples topic = some arr →
      handleAppendSample st topic (some x) tIn now =
        { st with
          samples :=
            aset st.samples topic
              (trimCap st.config.maxPoints (arr ++ [(tIn.getD now, x)])) }) ∧
    (∀ (st : WState) (topic : List Nat) (x : Q) (now : Q) (arr : List (Q × Q)),
      topic ≠ [] → aget st.samples topic = some arr →
      handleAppendSample st topic (some x) none now =
        { st with
          samples :=
            aset st.samples topic
              (trimCap st.config.maxPoints (arr ++ [(now, x)])) }) := by
  refine ⟨?_, ?_, ?_, ?_, ?_⟩
  · intro st topic tIn now
    unfold handleAppendSample
    split_ifs <;> rfl
  · intro st v tIn now
    simp [handleAppendSample]
  · intro st topic v tIn now h1 h2
    unfold handleAppendSample
    split_ifs with hA hB
    · rfl
    · rfl
    · exact absurd ⟨h1, h2⟩ hB
  · intro st topic x tIn now arr hne hnin harr
    simp [handleAppendSample, hne, harr]
  · intro st topic x now arr hne harr
    simp [handleAppendSample, hne, harr]

/-- C10 witness: a late sample for an unchecked but buffered channel is
accepted and stamped with the receipt time. -/
theorem c10_append_sample_guards_witness :
    handleAppendSample ⟨[], [(str "/t", [])], ⟨[], 3, 0⟩⟩ (str "/t")
        (some (qofNat 7)) none (qofNat 9) =
      ⟨[], [(str "/t", [(qofNat 9, qofNat 7)])], ⟨[], 3, 0⟩⟩ := by
  have h := c10_append_sample_guards.2.2.2.2 ⟨[], [(str "/t", [])], ⟨[], 3, 0⟩⟩
    (str "/t") (qofNat 7) (qofNat 9) [] (by decide) (by decide)
  rw [h]
  decide

/-! ## Render scheduler

Model of scheduleDraw / drawWaveform (media/topicPanel.js lines 80-98):
requestDraw sets a single coalescing flag and arms an animation-frame
callback; the callback clears the flag and runs drawWaveform, which
either draws (updating lastDrawAt) or, when inside the throttle window,
re-arms itself for the next frame. Time is an integer millisecond clock
(Date.now); a frame event carries the clock value and an abstract
snapshot of the drawable state, so an executed draw reflects the state
at draw time. -/

structure RS where
  lastDrawAt : Int
  scheduled : Bool
deriving DecidableEq, Repr

inductive REv where
  | req
  | frame (t : Int) (w : Nat)
deriving DecidableEq, Repr

/-- One scheduler event: a requestDraw call, or an animation frame at
clock t with drawable snapshot w. Returns the new state and the
executed draw, if any. -/
def rsStep (throttle : Nat) (st : RS) : REv → RS × Option (Int × Nat)
  | .req => (if st.scheduled then st else { st with scheduled := true }, none)
  | .frame t w =>
    if st.scheduled then
      if 0 < throttle ∧ t - st.lastDrawAt < (throttle : Int) then
        ({ lastDrawAt := st.lastDrawAt, scheduled := true }, none)
      else ({ lastDrawAt := t, scheduled := false }, some (t, w))
    else (st, none)

/-- Run the scheduler over an event list, collecting executed draws. -/
def rsRun (throttle : Nat) : RS → List REv → RS × List (Int × Nat)
  | st, [] => (st, [])
  | st, e :: rest =>
    let r1 := rsStep throttle st e
    let r2 := rsRun throttle r1.1 rest
    (r2.1, r1.2.toList ++ r2.2)

/-- Frame events at the given clock/snapshot pairs. -/
def framesOf (tws : List (Int × Nat)) : List REv :=
  tws.map (fun p => REv.frame p.1 p.2)

/-- Draw times are spaced by at least the throttle window, measured
from the last draw recorded in the state. -/
theorem rsRun_spacing (throttle : Nat) (hpos : 0 < throttle) (st : RS)
    (evs : List REv) :
    List.Chain (fun a b => a + (throttle : Int) ≤ b) st.lastDrawAt
      ((rsRun throttle st evs).2.map Prod.fst) := by
  induction evs generalizing st with
  | nil => simp [rsRun]
  | cons e rest ih =>
    cases e with
    | req =>
      simp only [rsRun, rsStep]
      by_cases h : st.scheduled
      · rw [if_pos h]
        simpa using ih st
      · rw [if_neg h]
        simpa using ih ⟨st.lastDrawAt, true⟩
    | frame t w =>
      simp only [rsRun, rsStep]
      by_cases hs : st.scheduled
      · rw [if_pos hs]
        by_cases hw : 0 < throttle ∧ t - st.lastDrawAt < (throttle : Int)
        · rw [if_pos hw]
          simpa using ih ⟨st.lastDrawAt, true⟩
        · rw [if_neg hw]
          have hge : st.lastDrawAt + (throttle : Int) ≤ t := by
            rcases not_and_or.mp hw with h | h
            · exact absurd hpos h
            · omega
          simp only [Option.toList, List.cons_append, List.nil_append,
            List.map_cons]
          exact List.Chain.cons hge (by simpa using ih ⟨t, false⟩)
      · rw [if_neg hs]
        simpa using ih st

/-- With no draw scheduled, frame events change nothing and draw
nothing: the animation-frame callback only runs when armed. -/
theorem rsRun_unscheduled (throttle : Nat) (L : Int) (tws : List (Int × Nat)) :
    rsRun throttle ⟨L, false⟩ (framesOf tws) = (⟨L, false⟩, []) := by
  induction tws with
  | nil => simp [rsRun, framesOf]
  | cons p rest ih =>
    simp only [framesOf, List.map_cons, rsRun, rsStep]
    rw [if_neg (by simp)]
    simpa [framesOf] using ih

/-- The trailing draw: with a request pending and positive throttle,
running any sequence of frames executes exactly the draw at the first
frame whose clock has left the throttle window (none if the frames stop
early), and that draw carries the snapshot of that frame. -/
theorem rsRun_trailing (throttle : Nat) (hpos : 0 < throttle) (L : Int)
    (tws : List (Int × Nat)) :
    (rsRun throttle ⟨L, true⟩ (framesOf tws)).2 =
      (tws.find? (fun p => decide (L + (throttle : Int) ≤ p.1))).toList := by
  induction tws with
  | nil => simp [rsRun, framesOf]
  | cons p rest ih =>
    simp only [framesOf, List.map_cons, rsRun, rsStep, if_true]
    by_cases hin : L + (throttle : Int) ≤ p.1
    · rw [if_neg (by omega)]
      rw [show (rsRun throttle ⟨p.1, false⟩ (List.map (fun p => REv.frame p.1 p.2) rest)) = (⟨p.1, false⟩, []) from rsRun_unscheduled throttle p.1 rest]
      rw [List.find?_cons_of_pos _ (by simpa using hin)]
      simp
    · rw [if_pos ⟨hpos, by omega⟩]
      rw [List.find?_cons_of_neg _ (by simpa using hin)]
      simpa [framesOf] using ih

/-- With throttle zero a pending request draws at the very next frame. -/
theorem rsRun_zero_draws (L : Int) (p : Int × Nat) (tws : List (Int × Nat)) :
    (rsRun 0 ⟨L, true⟩ (framesOf (p :: tws))).2 = [p] := by
  simp only [framesOf, List.map_cons, rsRun, rsStep, if_true]
  rw [if_neg (by simp)]
  rw [show (rsRun 0 ⟨p.1, false⟩ (List.map (fun p => REv.frame p.1 p.2) tws)) = (⟨p.1, false⟩, []) from rsRun_unscheduled 0 p.1 tws]
  simp

/-- C8. The render scheduler as claimed: (1) with a positive throttle,
executed draws are spaced at least one throttle window apart (at most
one draw per window, measured from the recorded last-draw clock);
(2) a request arriving inside a window is not lost: starting unarmed, a
requestDraw followed by any frames executes exactly the one draw at the
first frame outside the window, carrying the state snapshot of that frame
(state at draw time, not at request time), and none only if the frames
stop before the window elapses; (3) with throttle 0 the request draws
at the next frame with no additional delay. -/
theorem c8_throttled_redraw :
    (∀ (throttle : Nat) (st : RS) (evs : List REv), 0 < throttle →
      List.Chain (fun a b => a + (throttle : Int) ≤ b) st.lastDrawAt
        ((rsRun throttle st evs).2.map Prod.fst)) ∧
    (∀ (throttle : Nat) (L : Int) (tws : List (Int × Nat)), 0 < throttle →
      (rsRun throttle ⟨L, false⟩ (.req :: framesOf tws)).2 =
        (tws.find? (fun p => decide (L + (throttle : Int) ≤ p.1))).toList) ∧
    (∀ (L : Int) (p : Int × Nat) (tws : List (Int × Nat)),
      (rsRun 0 ⟨L, false⟩ (.req :: framesOf (p :: tws))).2 = [p]) := by
  refine ⟨fun throttle st evs h => rsRun_spacing throttle h st evs, ?_, ?_⟩
  · intro throttle L tws hpos
    have h := rsRun_trailing throttle hpos L tws
    simp only [rsRun, rsStep]
    simpa using h
  · intro L p tws
    have hu := rsRun_unscheduled 0 p.1 tws
    simp only [framesOf] at hu
    simp only [rsRun, rsStep, framesOf, List.map_cons]
    simp [hu]

/-- C8 witness: throttle 100, request at clock 0, frames at 10, 50 and
110 with snapshots 1, 2 and 3: exactly one draw happens, at clock 110,
and it renders snapshot 3 (the state at draw time). -/
theorem c8_throttled_redraw_witness :
    (rsRun 100 ⟨0, false⟩ (.req :: framesOf [(10, 1), (50, 2), (110, 3)])).2 =
      [(110, 3)] := by
  have h := c8_throttled_redraw.2.1 100 0 [(10, 1), (50, 2), (110, 3)] (by decide)
  rw [h]
  decide

/-! ## Subscription supervisor

Model of stopPanelEchoForTopic / startPanelEchoForTopic
(src/extension.ts lines 1033-1092). A child process handle carries the
killed flag (a signal was delivered through kill) and the observed exit
code (null while the process has not exited). The asynchronous wait is
modelled by an oracle: the millisecond, counted from the interrupt
signal, at which the process exit event fires (none = never). -/

structure Child where
  killed : Bool
  exitCode : Option Int
deriving DecidableEq, Repr

/-- Did the process exit within d milliseconds of the interrupt? -/
def exitedBy (exitMs : Option Nat) (d : Nat) : Bool :=
  match exitMs with
  | none => false
  | some m => m ≤ d

inductive StopAct where
  | sigint
  | sigwait (ms : Nat)
  | sigkill
  | removeEntry
  | warn
deriving DecidableEq, Repr

/-- The escalating stop sequence of stopPanelEchoForTopic on a live
child: send the interrupt signal, race the exit event against a 1.5 s
timer; if the exit code is still null, send the kill signal and race
against a further 1.0 s timer; finally either remove the subscription
entries (exit observed) or only surface a warning. -/
def stopTrace (exitMs : Option Nat) : List StopAct :=
  [.sigint, .sigwait 1500] ++
    (if exitedBy exitMs 1500 then [] else [.sigkill, .sigwait 1000]) ++
    (if exitedBy exitMs 2500 then [.removeEntry] else [.warn])

/-- stopPanelEchoForTopic: a missing or already-signalled child just
drops the map entries; a live child runs the escalation sequence. -/
def stopPanelEchoForTopic (child : Option Child) (exitMs : Option Nat) :
    List StopAct :=
  match child with
  | none => [.removeEntry]
  | some c => if c.killed then [.removeEntry] else stopTrace exitMs

/-- C5. The stop protocol on a running subscription: the interrupt
signal is always sent first and waited on for up to 1.5 seconds; the
kill signal is sent exactly when the process has not exited within the
1.5 s window, followed by a wait of up to 1.0 second; the subscription
entry is removed exactly when the exit was observed within the total
2.5 s escalation budget, and otherwise a warning is surfaced and the
entry is retained; removal and warning are mutually exclusive. -/
theorem c5_stop_escalation (c : Child) (exitMs : Option Nat)
    (hlive : c.killed = false) :
    (stopPanelEchoForTopic (some c) exitMs).take 2 = [.sigint, .sigwait 1500] ∧
    (StopAct.sigkill ∈ stopPanelEchoForTopic (some c) exitMs ↔
      exitedBy exitMs 1500 = false) ∧
    (StopAct.sigkill ∈ stopPanelEchoForTopic (some c) exitMs →
      StopAct.sigwait 1000 ∈ stopPanelEchoForTopic (some c) exitMs) ∧
    (StopAct.removeEntry ∈ stopPanelEchoForTopic (some c) exitMs ↔
      exitedBy exitMs 2500 = true) ∧
    (StopAct.warn ∈ stopPanelEchoForTopic (some c) exitMs ↔
      exitedBy exitMs 2500 = false) ∧
    (exitMs = none →
      StopAct.removeEntry ∉ stopPanelEchoForTopic (some c) exitMs ∧
      StopAct.sigkill ∈ stopPanelEchoForTopic (some c) exitMs ∧
      StopAct.warn ∈ stopPanelEchoForTopic (some c) exitMs) := by
  cases exitMs with
  | none => simp [stopPanelEchoForTopic, hlive, stopTrace, exitedBy]
  | some m =>
    by_cases hA : m ≤ 1500
    · have hB : m ≤ 2500 := by omega
      simp [stopPanelEchoForTopic, hlive, stopTrace, exitedBy, hA, hB]
    · by_cases hB : m ≤ 2500
      · simp [stopPanelEchoForTopic, hlive, stopTrace, exitedBy, hA, hB]
      · simp [stopPanelEchoForTopic, hlive, stopTrace, exitedBy, hA, hB]

/-- C5 witness: a process that ignores both signals (never exits) gets
the kill escalation, is not removed, and surfaces the warning. -/
theorem c5_stop_escalation_witness :
    (stopPanelEchoForTopic (some ⟨false, none⟩) none).take 2 =
        [.sigint, .sigwait 1500] ∧
    StopAct.sigkill ∈ stopPanelEchoForTopic (some ⟨false, none⟩) none ∧
    StopAct.removeEntry ∉ stopPanelEchoForTopic (some ⟨false, none⟩) none ∧
    StopAct.warn ∈ stopPanelEchoForTopic (some ⟨false, none⟩) none := by
  have h := c5_stop_escalation ⟨false, none⟩ none rfl
  exact ⟨h.1, (h.2.2.2.2.2 rfl).2.1, (h.2.2.2.2.2 rfl).1, (h.2.2.2.2.2 rfl).2.2⟩

/-! ## Starting a subscription -/

/-- startPanelEchoForTopic on the children map: when the topic already
has a child that has not been signalled (killed is false), return
unchanged and spawn nothing; otherwise spawn a fresh child and store it
under the topic. The Bool result records whether a process was
spawned. -/
def startPanelEchoForTopic (children : List (List Nat × Child))
    (topic : List Nat) (fresh : Child) : List (List Nat × Child) × Bool :=
  match aget children topic with
  | some c => if c.killed = false then (children, false)
              else (aset children topic fresh, true)
  | none => (aset children topic fresh, true)

/-- C9. Amended claim: starting is a no-op exactly for a channel whose
existing subscription has not yet been sent a signal (the Starting and
Running states); for a subscription in Stopping (interrupt already
sent, killed flag set, exit not yet observed - a live, non-terminal
process) the start is NOT a no-op: it spawns a fresh process and
replaces the map entry, so two processes can transiently exist for the
channel. The children map itself still holds at most one entry per
channel, since an update keeps the key unique. -/
theorem c9_start_idempotence (children : List (List Nat × Child))
    (topic : List Nat) (c fresh : Child)
    (hex : aget children topic = some c) :
    (c.killed = false →
      startPanelEchoForTopic children topic fresh = (children, false)) ∧
    (c.killed = true →
      startPanelEchoForTopic children topic fresh =
        (aset children topic fresh, true) ∧
      aget (aset children topic fresh) topic = some fresh) := by
  constructor
  · intro h
    simp [startPanelEchoForTopic, hex, h]
  · intro h
    refine ⟨by simp [startPanelEchoForTopic, hex, h], aget_aset _ _ _⟩

/-- C9 witness: both branches at concrete states. -/
theorem c9_start_idempotence_witness :
    startPanelEchoForTopic [(str "/t", ⟨false, none⟩)] (str "/t") ⟨false, none⟩ =
        ([(str "/t", ⟨false, none⟩)], false) ∧
    startPanelEchoForTopic [(str "/t", ⟨true, none⟩)] (str "/t") ⟨false, none⟩ =
        ([(str "/t", ⟨false, none⟩)], true) :=
  ⟨(c9_start_idempotence [(str "/t", ⟨false, none⟩)] (str "/t") ⟨false, none⟩
      ⟨false, none⟩ (by decide)).1 rfl,
    by
      have h := (c9_start_idempotence [(str "/t", ⟨true, none⟩)] (str "/t")
        ⟨true, none⟩ ⟨false, none⟩ (by decide)).2 rfl
      rw [h.1]
      decide⟩

/-- C9 counterexample: a channel in the Stopping state (the interrupt
signal was sent, so the killed flag is set, but no exit has been
observed - the subscription is live and non-terminal). Starting it is
not a no-op: a new process is spawned and the map entry is replaced, so
the claim that a Stopping channel makes start a no-op is false. -/
theorem c9_counterexample :
    (startPanelEchoForTopic [(str "/t", ⟨true, none⟩)] (str "/t")
        ⟨false, none⟩).2 = true ∧
    (startPanelEchoForTopic [(str "/t", ⟨true, none⟩)] (str "/t")
        ⟨false, none⟩).1 ≠ [(str "/t", ⟨true, none⟩)] := by
  refine ⟨by decide, by decide⟩
